import Mathlib

/-!
Shallow embedding of the correction engine of `src/main.cpp` ("the-shit"):
the `Command` value, the rule catalog, the priority dispatch loop, and the
fuzzy command-name matcher (Levenshtein distance + executable index).

External state (the PATH scan result, `stat`-based file existence, and the
implementation-defined permutation produced by `std::sort` on equal keys) is
modelled by an explicit `Env` record threaded through the rules.

Strings are modelled as Lean `String`s (sequences of characters); all the
C++ `std::string` operations used by the source are re-implemented below on
`String.data` so that every definition is executable.
-/

namespace TheShit

namespace utils

/-- `::tolower` in the C locale: map the ASCII capitals to lower case and
leave every other character unchanged (per-character, as `std::transform`
applies it in `utils::to_lower`). -/
def asciiToLower (c : Char) : Char :=
  if 'A' ≤ c ∧ c ≤ 'Z' then Char.ofNat (c.toNat + 32) else c

/-- `utils::to_lower`. -/
def to_lower (s : String) : String := ⟨s.data.map asciiToLower⟩

/-- `utils::contains`: `str.find(substr) != npos`, i.e. substring containment. -/
def contains (str substr : String) : Bool := decide (List.IsInfix substr.data str.data)

/-- `utils::starts_with`: `str.find(prefixStr) == 0`. -/
def starts_with (str pre : String) : Bool := pre.data.isPrefixOf str.data

/-- `utils::ends_with`. -/
def ends_with (str suffix : String) : Bool := suffix.data.isSuffixOf str.data

/-- The `std::getline(iss, part, delim)` loop of `utils::split`: accumulate
characters until the delimiter, pushing each completed fragment only when it
is non-empty.  `acc` holds the (reversed) characters of the fragment being
read. -/
def splitGo (delim : Char) : List Char → List Char → List String
  | [], acc => if acc = [] then [] else [⟨acc.reverse⟩]
  | c :: cs, acc =>
    if c = delim then
      if acc = [] then splitGo delim cs []
      else (⟨acc.reverse⟩ : String) :: splitGo delim cs []
    else splitGo delim cs (c :: acc)

/-- `utils::split` at its default delimiter `' '` (the only way the source
calls it). -/
def split (s : String) : List String := splitGo ' ' s.data []

/-- Split on every character satisfying `p`, KEEPING empty fragments.  Used
only to state theorems about `split` (and the spec's "whitespace-split"). -/
def splitAllP (p : Char → Bool) : List Char → List (List Char)
  | [] => [[]]
  | c :: cs =>
    if p c then [] :: splitAllP p cs
    else
      match splitAllP p cs with
      | w :: ws => (c :: w) :: ws
      | [] => [[c]]

/-- `std::string::find(sub)`: the least position where `sub` occurs, if any. -/
def findSub (hay needle : List Char) : Option Nat :=
  (List.range (hay.length + 1)).find? (fun i => needle.isPrefixOf (hay.drop i))

/-- `std::string::replace(pos, len, rep)` restricted to in-range arguments. -/
def replaceAt (s : String) (pos len : Nat) (rep : String) : String :=
  ⟨s.data.take pos ++ rep.data ++ s.data.drop (pos + len)⟩

/-- `std::string::substr(pos)` (drop the first `pos` characters). -/
def substrFrom (s : String) (pos : Nat) : String := ⟨s.data.drop pos⟩

/-- `std::string::substr(0, n)` (take the first `n` characters). -/
def takeStr (s : String) (n : Nat) : String := ⟨s.data.take n⟩

/-- `std::string::operator[]` as executed by the source: for `i < size()`
the stored character, for `i == size()` the null character (guaranteed by
C++11), larger indices never occur in the source. -/
def cppCharAt (s : String) (i : Nat) : Char := s.data.getD i (Char.ofNat 0)

/-- `std::string::operator[]` as a checked access: `none` exactly when the
index is out of the range `[0, size()]` that C++ defines. -/
def cppCharAtChecked (s : String) (i : Nat) : Option Char :=
  if i ≤ s.data.length then some (cppCharAt s i) else none

/-- `std::string::rfind(c)`: the greatest position holding `c`, if any. -/
def rfindChar (s : String) (c : Char) : Option Nat :=
  match s.data.reverse.findIdx? (fun d => d = c) with
  | some k => some (s.data.length - 1 - k)
  | none => none

end utils

/-- The `Command` struct: raw script, captured output, and the tokenization
computed by the constructor. -/
structure Command where
  script : String
  output : String
  script_parts : List String

/-- The `Command(s, o)` constructor: `script_parts = utils::split(s)`.
Every `Command` the program ever creates goes through this. -/
def Command.build (s o : String) : Command := ⟨s, o, utils.split s⟩

namespace fuzzy

/-- The value of the DP cell `dp[i][j]` of `fuzzy::levenshtein_distance`:
`dp[i][0] = i`, `dp[0][j] = j`, and
`dp[i][j] = dp[i-1][j-1]` when `s1[i-1] == s2[j-1]`, otherwise
`1 + min(dp[i-1][j], dp[i][j-1], dp[i-1][j-1])`.  The `vector<vector<int>>`
table of the source is memoization of exactly this recurrence. -/
def levEntry (s1 s2 : List Char) : Nat → Nat → Nat
  | i, 0 => i
  | 0, j + 1 => j + 1
  | i + 1, j + 1 =>
    if s1.getD i (Char.ofNat 0) = s2.getD j (Char.ofNat 0) then
      levEntry s1 s2 i j
    else
      1 + min (levEntry s1 s2 i (j + 1)) (min (levEntry s1 s2 (i + 1) j) (levEntry s1 s2 i j))
  termination_by i j => (i, j)

/-- `fuzzy::levenshtein_distance`: the bottom-right DP cell. -/
def levenshtein_distance (a b : String) : Nat :=
  levEntry a.data b.data a.data.length b.data.length

/-- `fuzzy::CommandMatch`. -/
structure CommandMatch where
  command : String
  distance : Nat
deriving DecidableEq, Repr

/-- The filtering loop of `fuzzy::find_similar_commands`, before the
`std::sort` call: one `CommandMatch` per indexed name within `max_distance`
of the input, in index enumeration order. -/
def candidate_matches (commands : List String) (input : String) (max_distance : Nat) :
    List CommandMatch :=
  (commands.map (fun c => CommandMatch.mk c (levenshtein_distance input c))).filter
    (fun m => m.distance ≤ max_distance)

end fuzzy

/-- The external state the engine reads: the memoized executable index
(`fuzzy::get_command_cache().get_commands()`, a PATH scan), the
`utils::file_exists` filesystem probe, and the permutation `std::sort`
applies to the match vector — the C++ standard only promises that the
result is a comparator-sorted permutation of its argument, so the function
itself is part of the environment. -/
structure Env where
  commands : List String
  fileExists : String → Bool
  sortMatches : List fuzzy.CommandMatch → List fuzzy.CommandMatch

/-- What `std::sort(matches, compare_matches)` guarantees of its output
(`compare_matches` compares `distance` with `<`): a permutation of the input
that is nondecreasing in `distance`.  Nothing more — `std::sort` is not
stable, so the order among equal distances is implementation-defined. -/
def SortSpec (input output : List fuzzy.CommandMatch) : Prop :=
  output.Perm input ∧ output.Pairwise (fun a b => a.distance ≤ b.distance)

/-- `fuzzy::find_similar_commands`: filter the index by distance, then sort
by distance. -/
def find_similar_commands (env : Env) (input : String) (max_distance : Nat) :
    List fuzzy.CommandMatch :=
  env.sortMatches (fuzzy.candidate_matches env.commands input max_distance)

/-- A rule: the `Rule` base class collapsed to a record.  `match` is a Lean
keyword, so the `match(cmd)` member is embedded as `matchCmd`; `priority`
embeds the virtual `get_priority()` (which returns 1000 and is overridden by
no rule). -/
structure Rule where
  name : String
  priority : Nat
  matchCmd : Env → Command → Bool
  get_new_command : Env → Command → List String

/-- A character of the regex class `[a-zA-Z0-9_-]` of `GitPushRule`. -/
def branchChar (c : Char) : Bool := c.isAlphanum || c == '_' || c == '-'

/-- `std::regex_search` for the pattern `lit([p]+)`: find the leftmost
position where the literal `lit` is followed by a non-empty run of
characters satisfying `p`, and capture that (greedy, maximal) run. -/
def scanCapture (lit : List Char) (p : Char → Bool) : List Char → Option (List Char)
  | [] => none
  | c :: cs =>
    let run := ((c :: cs).drop lit.length).takeWhile p
    if lit.isPrefixOf (c :: cs) ∧ run ≠ [] then some run
    else scanCapture lit p cs

/-- The capture of `GitPushRule`'s regex
`git push --set-upstream origin ([a-zA-Z0-9_-]+)` run over the output. -/
def captureGitPushBranch (out : String) : Option String :=
  (scanCapture "git push --set-upstream origin ".data branchChar out.data).map
    (fun l => (⟨l⟩ : String))

/-- `std::regex_search` for `GitNotCommandRule`'s pattern
`The most similar command is\s+([a-z]+)`: the literal, then at least one
whitespace character (ECMAScript `\s`, modelled by ASCII whitespace), then a
captured non-empty run of lower-case letters.  `\s` and `[a-z]` are
disjoint, so the greedy maximal runs are exact. -/
def scanMostSimilar (lit : List Char) : List Char → Option (List Char)
  | [] => none
  | c :: cs =>
    let rest := (c :: cs).drop lit.length
    let ws := rest.takeWhile (fun d => d.isWhitespace)
    let run := (rest.drop ws.length).takeWhile (fun d => decide ('a' ≤ d ∧ d ≤ 'z'))
    if lit.isPrefixOf (c :: cs) ∧ ws ≠ [] ∧ run ≠ [] then some run
    else scanMostSimilar lit cs

/-- The capture of `GitNotCommandRule`'s regex over the output. -/
def captureMostSimilar (out : String) : Option String :=
  (scanMostSimilar "The most similar command is".data out.data).map
    (fun l => (⟨l⟩ : String))

def SudoRule : Rule :=
  ⟨"SudoRule", 1000,
    fun _ cmd =>
      let lower := utils.to_lower cmd.output
      utils.contains lower "permission denied" || utils.contains lower "Permission denied" ||
        utils.contains lower "EACCES" || utils.contains cmd.output "unless you are root",
    fun _ cmd => ["sudo " ++ cmd.script]⟩

def GitPushRule : Rule :=
  ⟨"GitPushRule", 1000,
    fun _ cmd =>
      utils.starts_with cmd.script "git push" &&
        utils.contains cmd.output "has no upstream branch",
    fun _ cmd =>
      match captureGitPushBranch cmd.output with
      | some b => ["git push --set-upstream origin " ++ b]
      | none => ["git push --set-upstream origin master"]⟩

/-- The typo map of `NoCommandRule::get_new_command` (an association list;
`std::map` lookup by key). -/
def noCommandTypos : List (String × String) :=
  [("puthon", "python"), ("pytohn", "python"), ("gti", "git"),
   ("vom", "vim"), ("claer", "clear"), ("cd..", "cd .."),
   ("sl", "ls"), ("grpe", "grep"), ("pyton", "python")]

def NoCommandRule : Rule :=
  ⟨"NoCommandRule", 1000,
    fun _ cmd =>
      utils.contains cmd.output "command not found" || utils.contains cmd.output "No command",
    fun _ cmd =>
      match cmd.script_parts with
      | [] => [cmd.script]
      | first :: rest =>
        match noCommandTypos.lookup first with
        | some fixed => [rest.foldl (fun acc p => acc ++ " " ++ p) fixed]
        | none => [cmd.script]⟩

def GitNotCommandRule : Rule :=
  ⟨"GitNotCommandRule", 1000,
    fun _ cmd =>
      utils.starts_with cmd.script "git" && utils.contains cmd.output "is not a git command",
    fun _ cmd =>
      match captureMostSimilar cmd.output with
      | some w =>
        [(cmd.script_parts.drop 2).foldl (fun acc p => acc ++ " " ++ p) ("git " ++ w)]
      | none => [cmd.script]⟩

def GitNotRepositoryRule : Rule :=
  ⟨"GitNotRepositoryRule", 1000,
    fun _ cmd =>
      utils.starts_with cmd.script "git" &&
        utils.contains cmd.output "fatal: not a git repository (or any of the parent directories):",
    fun _ _ => ["git create"]⟩

def CdMkdirRule : Rule :=
  ⟨"CdMkdirRule", 1000,
    fun _ cmd =>
      utils.starts_with cmd.script "cd " &&
        (utils.contains cmd.output "No such file or directory" ||
          utils.contains cmd.output "cannot access"),
    fun _ cmd =>
      if 2 ≤ cmd.script_parts.length then
        ["mkdir -p " ++ cmd.script_parts.getD 1 "" ++ " && cd " ++ cmd.script_parts.getD 1 ""]
      else [cmd.script]⟩

def CdParentRule : Rule :=
  ⟨"CdParentRule", 1000, fun _ cmd => cmd.script == "cd..", fun _ _ => ["cd .."]⟩

def CdCsRule : Rule :=
  ⟨"CdCsRule", 1000,
    fun _ cmd => utils.starts_with cmd.script "cs ",
    fun _ cmd => ["cd " ++ utils.substrFrom cmd.script 3]⟩

def CatDirRule : Rule :=
  ⟨"CatDirRule", 1000,
    fun _ cmd =>
      utils.starts_with cmd.script "cat " &&
        (utils.contains cmd.output "Is a directory" || utils.contains cmd.output "is a directory"),
    fun _ cmd => ["ls " ++ utils.substrFrom cmd.script 4]⟩

def ChmodXRule : Rule :=
  ⟨"ChmodXRule", 1000,
    fun _ cmd =>
      utils.contains cmd.output "Permission denied" &&
        decide (1 ≤ cmd.script_parts.length) &&
        (utils.cppCharAt (cmd.script_parts.getD 0 "") 0 == '.') &&
        (utils.cppCharAt (cmd.script_parts.getD 0 "") 1 == '/'),
    fun _ cmd => ["chmod +x " ++ cmd.script_parts.getD 0 "" ++ " && " ++ cmd.script]⟩

def CpOmittingDirectoryRule : Rule :=
  ⟨"CpOmittingDirectoryRule", 1000,
    fun _ cmd =>
      utils.starts_with cmd.script "cp " && utils.contains cmd.output "omitting directory",
    fun _ cmd => ["cp -r " ++ utils.substrFrom cmd.script 3]⟩

def DryRule : Rule :=
  ⟨"DryRule", 1000,
    fun _ cmd =>
      if cmd.script_parts.length < 2 then false
      else cmd.script_parts.getD 0 "" == cmd.script_parts.getD 1 "",
    fun _ cmd =>
      [(cmd.script_parts.drop 2).foldl (fun acc p => acc ++ " " ++ p)
        (cmd.script_parts.getD 0 "")]⟩

def GitAddRule : Rule :=
  ⟨"GitAddRule", 1000,
    fun _ cmd =>
      utils.starts_with cmd.script "git add" && utils.contains cmd.output "did not match any file",
    fun _ _ => ["git add -A"]⟩

def GitAddForceRule : Rule :=
  ⟨"GitAddForceRule", 1000,
    fun _ cmd =>
      utils.starts_with cmd.script "git add" &&
        (utils.contains cmd.output ".gitignore" || utils.contains cmd.output "ignored"),
    fun _ cmd => [cmd.script ++ " --force"]⟩

def GitBranchDeleteRule : Rule :=
  ⟨"GitBranchDeleteRule", 1000,
    fun _ cmd =>
      utils.contains cmd.script "git branch -d" && utils.contains cmd.output "not fully merged",
    fun _ cmd =>
      match utils.findSub cmd.script.data "-d".data with
      | some pos => [utils.takeStr cmd.script pos ++ "-D" ++ utils.substrFrom cmd.script (pos + 2)]
      | none => [cmd.script]⟩

def GitCommitAddRule : Rule :=
  ⟨"GitCommitAddRule", 1000,
    fun _ cmd =>
      utils.starts_with cmd.script "git commit" &&
        utils.contains cmd.output "no changes added to commit",
    fun _ cmd =>
      let rest := if 10 < cmd.script.data.length then utils.substrFrom cmd.script 10 else ""
      ["git commit -a" ++ rest, "git commit -p" ++ rest]⟩

def GitCommitAmendRule : Rule :=
  ⟨"GitCommitAmendRule", 1000,
    fun _ cmd =>
      utils.starts_with cmd.script "git commit" && !utils.contains cmd.script "--amend",
    fun _ cmd => [cmd.script ++ " --amend"]⟩

def GitPullRule : Rule :=
  ⟨"GitPullRule", 1000,
    fun _ cmd =>
      utils.starts_with cmd.script "git pull" && utils.contains cmd.output "no tracking information",
    fun _ _ => ["git branch --set-upstream-to=origin/master master && git pull"]⟩

def GitTwoDashesRule : Rule :=
  ⟨"GitTwoDashesRule", 1000,
    fun _ cmd =>
      utils.starts_with cmd.script "git " &&
        (utils.contains cmd.script " -amend" || utils.contains cmd.script " -continue" ||
          utils.contains cmd.script " -abort"),
    fun _ cmd =>
      match utils.findSub cmd.script.data " -amend".data with
      | some pos => [utils.replaceAt cmd.script pos 7 " --amend"]
      | none =>
        match utils.findSub cmd.script.data " -continue".data with
        | some pos => [utils.replaceAt cmd.script pos 10 " --continue"]
        | none =>
          match utils.findSub cmd.script.data " -abort".data with
          | some pos => [utils.replaceAt cmd.script pos 7 " --abort"]
          | none => [cmd.script]⟩

def GrepRecursiveRule : Rule :=
  ⟨"GrepRecursiveRule", 1000,
    fun _ cmd =>
      utils.starts_with cmd.script "grep " && utils.contains cmd.output "Is a directory",
    fun _ cmd => ["grep -r " ++ utils.substrFrom cmd.script 5]⟩

def HasExistsScriptRule : Rule :=
  ⟨"HasExistsScriptRule", 1000,
    fun env cmd =>
      utils.contains cmd.output "command not found" &&
        !cmd.script_parts.isEmpty && env.fileExists (cmd.script_parts.getD 0 ""),
    fun _ cmd => ["./" ++ cmd.script]⟩

def LsAllRule : Rule :=
  ⟨"LsAllRule", 1000,
    fun _ cmd => cmd.script == "ls" && cmd.output.isEmpty,
    fun _ _ => ["ls -A"]⟩

def LsLahRule : Rule :=
  ⟨"LsLahRule", 1000,
    fun _ cmd => cmd.script == "ls" && !cmd.output.isEmpty,
    fun _ _ => ["ls -lah"]⟩

def MkdirPRule : Rule :=
  ⟨"MkdirPRule", 1000,
    fun _ cmd =>
      utils.starts_with cmd.script "mkdir " &&
        utils.contains cmd.output "No such file or directory",
    fun _ cmd => ["mkdir -p " ++ utils.substrFrom cmd.script 6]⟩

def RmDirRule : Rule :=
  ⟨"RmDirRule", 1000,
    fun _ cmd =>
      utils.starts_with cmd.script "rm " &&
        (utils.contains cmd.output "is a directory" || utils.contains cmd.output "Is a directory"),
    fun _ cmd => ["rm -rf " ++ utils.substrFrom cmd.script 3]⟩

def SlLsRule : Rule :=
  ⟨"SlLsRule", 1000,
    fun _ cmd => cmd.script == "sl" || utils.starts_with cmd.script "sl ",
    fun _ cmd => ["ls" ++ utils.substrFrom cmd.script 2]⟩

def PythonCommandRule : Rule :=
  ⟨"PythonCommandRule", 1000,
    fun _ cmd =>
      utils.contains cmd.output "Permission denied" &&
        !cmd.script_parts.isEmpty && utils.ends_with (cmd.script_parts.getD 0 "") ".py",
    fun _ cmd => ["python " ++ cmd.script]⟩

def PythonExecuteRule : Rule :=
  ⟨"PythonExecuteRule", 1000,
    fun _ cmd =>
      utils.starts_with cmd.script "python " && utils.contains cmd.output "No such file" &&
        !utils.ends_with cmd.script ".py",
    fun _ cmd => [cmd.script ++ ".py"]⟩

/-- `JavaRule::match` calls `script_parts.back()` with no emptiness guard
(undefined on an empty vector); the total embedding uses `getLastD` and the
checked-access theorem shows the `starts_with "java "` conjunct makes the
unguarded access unreachable for constructor-built Commands. -/
def JavaRule : Rule :=
  ⟨"JavaRule", 1000,
    fun _ cmd =>
      utils.starts_with cmd.script "java " &&
        utils.ends_with (cmd.script_parts.getLastD "") ".java",
    fun _ cmd => [utils.takeStr cmd.script (cmd.script.data.length - 5)]⟩

def JavacRule : Rule :=
  ⟨"JavacRule", 1000,
    fun _ cmd =>
      utils.starts_with cmd.script "javac " && utils.contains cmd.output "No such file" &&
        !utils.ends_with cmd.script ".java",
    fun _ cmd => [cmd.script ++ ".java"]⟩

def GoRunRule : Rule :=
  ⟨"GoRunRule", 1000,
    fun _ cmd => utils.starts_with cmd.script "go run " && !utils.ends_with cmd.script ".go",
    fun _ cmd => [cmd.script ++ ".go"]⟩

def CargoRule : Rule :=
  ⟨"CargoRule", 1000, fun _ cmd => cmd.script == "cargo", fun _ _ => ["cargo build"]⟩

/-- The subcommand map of `DockerNotCommandRule::get_new_command`. -/
def dockerCommon : List (String × String) := [("tags", "images"), ("tag", "image")]

def DockerNotCommandRule : Rule :=
  ⟨"DockerNotCommandRule", 1000,
    fun _ cmd =>
      utils.starts_with cmd.script "docker " && utils.contains cmd.output "is not a docker command",
    fun _ cmd =>
      if 1 < cmd.script_parts.length then
        match dockerCommon.lookup (cmd.script_parts.getD 1 "") with
        | some v => ["docker " ++ v]
        | none => [cmd.script]
      else [cmd.script]⟩

/-- The typo map of `NpmWrongCommandRule::get_new_command`. -/
def npmTypos : List (String × String) :=
  [("urgrade", "upgrade"), ("isntall", "install"), ("instal", "install"), ("intsall", "install")]

def NpmWrongCommandRule : Rule :=
  ⟨"NpmWrongCommandRule", 1000,
    fun _ cmd =>
      utils.starts_with cmd.script "npm " && utils.contains cmd.output "Unknown command",
    fun _ cmd =>
      if 1 < cmd.script_parts.length then
        match npmTypos.lookup (cmd.script_parts.getD 1 "") with
        | some v => ["npm " ++ v]
        | none => [cmd.script]
      else [cmd.script]⟩

/-- The typo map of `PipUnknownCommandRule::get_new_command`. -/
def pipTypos : List (String × String) :=
  [("instatl", "install"), ("instal", "install"), ("isntall", "install"),
   ("unisntall", "uninstall")]

def PipUnknownCommandRule : Rule :=
  ⟨"PipUnknownCommandRule", 1000,
    fun _ cmd =>
      utils.starts_with cmd.script "pip " && utils.contains cmd.output "unknown command",
    fun _ cmd =>
      if 1 < cmd.script_parts.length then
        match pipTypos.lookup (cmd.script_parts.getD 1 "") with
        | some v => ["pip " ++ v]
        | none => [cmd.script]
      else [cmd.script]⟩

def GitCloneGitCloneRule : Rule :=
  ⟨"GitCloneGitCloneRule", 1000,
    fun _ cmd => utils.starts_with cmd.script "git clone git clone",
    fun _ cmd => [utils.substrFrom cmd.script 10]⟩

def WrongHyphenBeforeSubcommandRule : Rule :=
  ⟨"WrongHyphenBeforeSubcommandRule", 1000,
    fun _ cmd =>
      utils.contains cmd.output "command not found" &&
        decide (0 < cmd.script_parts.length) &&
        utils.contains (cmd.script_parts.getD 0 "") "-",
    fun _ cmd =>
      match cmd.script.data.findIdx? (fun c => c == '-') with
      | some pos => [(⟨cmd.script.data.set pos ' '⟩ : String)]
      | none => [cmd.script]⟩

def MissingSpaceBeforeSubcommandRule : Rule :=
  ⟨"MissingSpaceBeforeSubcommandRule", 1000,
    fun _ cmd =>
      utils.contains cmd.output "command not found" &&
        (utils.starts_with cmd.script "npm" || utils.starts_with cmd.script "git" ||
          utils.starts_with cmd.script "apt"),
    fun _ cmd =>
      if utils.starts_with cmd.script "npminstall" then
        ["npm install" ++ utils.substrFrom cmd.script 10]
      else if utils.starts_with cmd.script "gitcommit" then
        ["git commit" ++ utils.substrFrom cmd.script 9]
      else if utils.starts_with cmd.script "aptinstall" then
        ["apt install" ++ utils.substrFrom cmd.script 10]
      else [cmd.script]⟩

def RemoveShellPromptLiteralRule : Rule :=
  ⟨"RemoveShellPromptLiteralRule", 1000,
    fun _ cmd => utils.starts_with cmd.script "$ ",
    fun _ cmd => [utils.substrFrom cmd.script 2]⟩

def TouchRule : Rule :=
  ⟨"TouchRule", 1000,
    fun _ cmd =>
      utils.starts_with cmd.script "touch " &&
        utils.contains cmd.output "No such file or directory",
    fun _ cmd =>
      let path := utils.substrFrom cmd.script 6
      match utils.rfindChar path '/' with
      | some last_slash =>
        ["mkdir -p " ++ utils.takeStr path last_slash ++ " && touch " ++ path]
      | none => [cmd.script]⟩

def UnsudoRule : Rule :=
  ⟨"UnsudoRule", 1000,
    fun _ cmd =>
      utils.starts_with cmd.script "sudo " &&
        (utils.contains cmd.output "must not be run as root" ||
          utils.contains cmd.output "don't run this as root"),
    fun _ cmd => [utils.substrFrom cmd.script 5]⟩

def LnSOrderRule : Rule :=
  ⟨"LnSOrderRule", 1000,
    fun _ cmd =>
      utils.starts_with cmd.script "ln -s" &&
        utils.contains cmd.output "No such file or directory",
    fun _ cmd =>
      if 4 ≤ cmd.script_parts.length then
        ["ln -s " ++ cmd.script_parts.getD 3 "" ++ " " ++ cmd.script_parts.getD 2 ""]
      else [cmd.script]⟩

def Cpp11Rule : Rule :=
  ⟨"Cpp11Rule", 1000,
    fun _ cmd =>
      (utils.starts_with cmd.script "g++ " || utils.starts_with cmd.script "clang++ ") &&
        !utils.contains cmd.script "-std=" &&
        (utils.contains cmd.output "C++11" || utils.contains cmd.output "c++11"),
    fun _ cmd => [cmd.script ++ " -std=c++11"]⟩

def GitMainMasterRule : Rule :=
  ⟨"GitMainMasterRule", 1000,
    fun _ cmd =>
      (utils.contains cmd.script "master" && utils.contains cmd.output "did you mean 'main'") ||
        (utils.contains cmd.script "main" && utils.contains cmd.output "did you mean 'master'"),
    fun _ cmd =>
      if utils.contains cmd.script "master" then
        match utils.findSub cmd.script.data "master".data with
        | some pos => [utils.replaceAt cmd.script pos 6 "main"]
        | none => [cmd.script]
      else
        match utils.findSub cmd.script.data "main".data with
        | some pos => [utils.replaceAt cmd.script pos 4 "master"]
        | none => [cmd.script]⟩

def FuzzyCommandRule : Rule :=
  ⟨"FuzzyCommandRule", 1000,
    fun env cmd =>
      if !utils.contains cmd.output "command not found" then false
      else if cmd.script_parts.isEmpty then false
      else !(find_similar_commands env (cmd.script_parts.getD 0 "") 2).isEmpty,
    fun env cmd =>
      if cmd.script_parts.isEmpty then []
      else
        ((find_similar_commands env (cmd.script_parts.getD 0 "") 3).take 3).map
          (fun m => (cmd.script_parts.drop 1).foldl (fun acc p => acc ++ " " ++ p) m.command)⟩

/-- The 44 `rules.push_back(...)` calls of the `RuleManager` constructor, in
source registration order. -/
def registry : List Rule :=
  [SudoRule, FuzzyCommandRule, GitPushRule, NoCommandRule, GitNotCommandRule,
   CdMkdirRule, CdParentRule, CdCsRule, CatDirRule, ChmodXRule,
   CpOmittingDirectoryRule, DryRule, GitAddRule, GitAddForceRule, GitBranchDeleteRule,
   GitCommitAddRule, GitCommitAmendRule, GitPullRule, GitTwoDashesRule, GrepRecursiveRule,
   HasExistsScriptRule, LsAllRule, LsLahRule, MkdirPRule, RmDirRule,
   SlLsRule, PythonCommandRule, PythonExecuteRule, JavaRule, JavacRule,
   GoRunRule, CargoRule, DockerNotCommandRule, NpmWrongCommandRule, PipUnknownCommandRule,
   GitCloneGitCloneRule, WrongHyphenBeforeSubcommandRule, MissingSpaceBeforeSubcommandRule,
   RemoveShellPromptLiteralRule, TouchRule, UnsudoRule, LnSOrderRule, Cpp11Rule,
   GitMainMasterRule]

/-- What `std::sort(rules, priority-comparator)` guarantees of the registry
after construction: a permutation of the registered rules, nondecreasing in
priority.  Nothing more — `std::sort` is not stable. -/
def RegistryPost (l : List Rule) : Prop :=
  l.Perm registry ∧ l.Pairwise (fun a b => a.priority ≤ b.priority)

/-- `RuleManager::get_corrected_commands`: scan the registry in order and
return the first matching rule's candidates, or the empty list. -/
def get_corrected_commands (env : Env) (rules : List Rule) (cmd : Command) : List String :=
  match rules with
  | [] => []
  | r :: rs =>
    if r.matchCmd env cmd then r.get_new_command env cmd else get_corrected_commands env rs cmd

/-- A trivial environment: empty executable index, no files, identity sort
(used to instantiate witnesses). -/
def env0 : Env := ⟨[], fun _ => false, fun l => l⟩

/-- "Split `s` at every character satisfying `p` and remove the empty
fragments, order preserved" — the shape in which the spec states the
tokenization invariant. -/
def tokensOfSplitAll (p : Char → Bool) (s : String) : List String :=
  ((utils.splitAllP p s.data).filter (fun w => w ≠ [])).map (fun w => (⟨w⟩ : String))

/-- Modelled from the spec's words ("`tokens` equals the whitespace-split of
`script` with empty fragments removed"): split at every whitespace
character. -/
def whitespaceTokens (s : String) : List String :=
  tokensOfSplitAll (fun c => c.isWhitespace) s

/-- The registration-order registry with its first two rules exchanged: a
second output that the `std::sort` contract of `RuleManager`'s constructor
also allows, since every rule has priority 1000. -/
def swappedRegistry : List Rule := FuzzyCommandRule :: SudoRule :: registry.drop 2

/-- `ChmodXRule::match` with every container access checked: `none` would
mean an access outside the range C++ defines (`operator[]` of `std::string`
is defined up to and including `size()`, where it yields the null
character). -/
def chmodXMatchChecked (cmd : Command) : Option Bool :=
  if !utils.contains cmd.output "Permission denied" then some false
  else if !(decide (1 ≤ cmd.script_parts.length)) then some false
  else
    match cmd.script_parts[0]? with
    | none => none
    | some p0 =>
      match utils.cppCharAtChecked p0 0 with
      | none => none
      | some c0 =>
        if c0 != '.' then some false
        else
          match utils.cppCharAtChecked p0 1 with
          | none => none
          | some c1 => some (c1 == '/')

/-- `JavaRule::match` with the unguarded `script_parts.back()` checked:
`none` exactly when the vector is empty (where C++ `back()` is undefined). -/
def javaMatchChecked (cmd : Command) : Option Bool :=
  if !utils.starts_with cmd.script "java " then some false
  else
    match cmd.script_parts.getLast? with
    | none => none
    | some last => some (utils.ends_with last ".java")

/-- `DryRule::match` with checked token accesses. -/
def dryMatchChecked (cmd : Command) : Option Bool :=
  if cmd.script_parts.length < 2 then some false
  else
    match cmd.script_parts[0]?, cmd.script_parts[1]? with
    | some a, some b => some (a == b)
    | _, _ => none

/-- `HasExistsScriptRule::match` with checked token access. -/
def hasExistsScriptMatchChecked (env : Env) (cmd : Command) : Option Bool :=
  if !utils.contains cmd.output "command not found" then some false
  else if cmd.script_parts.isEmpty then some false
  else (cmd.script_parts[0]?).map (fun p0 => env.fileExists p0)

/-- `PythonCommandRule::match` with checked token access. -/
def pythonCommandMatchChecked (cmd : Command) : Option Bool :=
  if !utils.contains cmd.output "Permission denied" then some false
  else if cmd.script_parts.isEmpty then some false
  else (cmd.script_parts[0]?).map (fun p0 => utils.ends_with p0 ".py")

/-- `WrongHyphenBeforeSubcommandRule::match` with checked token access. -/
def wrongHyphenMatchChecked (cmd : Command) : Option Bool :=
  if !utils.contains cmd.output "command not found" then some false
  else if !(decide (0 < cmd.script_parts.length)) then some false
  else (cmd.script_parts[0]?).map (fun p0 => utils.contains p0 "-")

/-- `FuzzyCommandRule::match` with checked token access. -/
def fuzzyMatchChecked (env : Env) (cmd : Command) : Option Bool :=
  if !utils.contains cmd.output "command not found" then some false
  else if cmd.script_parts.isEmpty then some false
  else (cmd.script_parts[0]?).map
    (fun p0 => !(find_similar_commands env p0 2).isEmpty)

/-! ### Helper lemmas -/

theorem levEntry_comm (s1 s2 : List Char) :
    ∀ i j, fuzzy.levEntry s1 s2 i j = fuzzy.levEntry s2 s1 j i := by
  intro i j
  induction i, j using fuzzy.levEntry.induct s1 s2 with
  | case1 i => cases i <;> simp [fuzzy.levEntry]
  | case2 j => simp [fuzzy.levEntry]
  | case3 i j h ih =>
    rw [fuzzy.levEntry, fuzzy.levEntry, if_pos h, if_pos h.symm, ih]
  | case4 i j h ih1 ih2 ih3 =>
    rw [fuzzy.levEntry, fuzzy.levEntry]
    rw [if_neg h, if_neg (fun hh => h hh.symm)]
    rw [ih1, ih2, ih3]
    omega

theorem levEntry_self (s : List Char) : ∀ i, fuzzy.levEntry s s i i = 0 := by
  intro i
  induction i with
  | zero => simp [fuzzy.levEntry]
  | succ k ih => rw [fuzzy.levEntry, if_pos rfl, ih]

theorem splitAllP_ne_nil (p : Char → Bool) : ∀ l : List Char, utils.splitAllP p l ≠ [] := by
  intro l
  induction l with
  | nil => simp [utils.splitAllP]
  | cons c cs ih =>
    rw [utils.splitAllP]
    by_cases h : p c
    · simp [h]
    · simp only [h]
      rcases hs : utils.splitAllP p cs with _ | ⟨w, ws⟩
      · exact absurd hs ih
      · simp

theorem splitGo_splitAllP (d : Char) :
    ∀ (l acc w : List Char) (ws : List (List Char)),
      utils.splitAllP (fun c => c == d) l = w :: ws →
      utils.splitGo d l acc =
        (((acc.reverse ++ w) :: ws).filter (fun x => x ≠ [])).map
          (fun x => (⟨x⟩ : String)) := by
  intro l
  induction l with
  | nil =>
    intro acc w ws h
    rw [utils.splitAllP] at h
    obtain ⟨h1, h2⟩ := List.cons.inj h
    subst h1; subst h2
    rw [utils.splitGo]
    by_cases ha : acc = []
    · simp [ha]
    · have : acc.reverse ≠ [] := by simpa using ha
      simp [ha, this]
  | cons c cs ih =>
    intro acc w ws h
    rw [utils.splitAllP] at h
    rw [utils.splitGo]
    by_cases hc : c = d
    · have hc' : (c == d) = true := by simpa using hc
      rw [if_pos hc'] at h
      obtain ⟨h1, h2⟩ := List.cons.inj h
      subst h1; subst h2
      rcases hcs : utils.splitAllP (fun c => c == d) cs with _ | ⟨w0, ws0⟩
      · exact absurd hcs (splitAllP_ne_nil _ _)
      · have hrec := ih [] w0 ws0 hcs
        rw [if_pos hc]
        by_cases ha : acc = []
        · rw [if_pos ha, hrec]
          subst ha
          simp [hcs]
        · have : acc.reverse ≠ [] := by simpa using ha
          rw [if_neg ha, hrec]
          simp [hcs, this]
    · have hc' : (c == d) = false := by simpa using hc
      rw [if_neg (by simp [hc'] : ¬ ((c == d) = true))] at h
      rcases hcs : utils.splitAllP (fun c => c == d) cs with _ | ⟨w0, ws0⟩
      · rw [hcs] at h; exact absurd hcs (splitAllP_ne_nil _ _)
      · rw [hcs] at h
        obtain ⟨h1, h2⟩ := List.cons.inj h
        subst h2
        rw [if_neg hc]
        have hrec := ih (c :: acc) w0 ws0 hcs
        rw [hrec, ← h1]
        simp [List.append_assoc]

theorem split_eq_space_tokens (s : String) :
    utils.split s = tokensOfSplitAll (fun c => c == ' ') s := by
  rcases h : utils.splitAllP (fun c => c == ' ') s.data with _ | ⟨w, ws⟩
  · exact absurd h (splitAllP_ne_nil _ _)
  · rw [utils.split, splitGo_splitAllP ' ' s.data [] w ws h, tokensOfSplitAll, h]
    simp

theorem get_corrected_eq_find (env : Env) (cmd : Command) :
    ∀ rules : List Rule,
      get_corrected_commands env rules cmd =
        match rules.find? (fun r => r.matchCmd env cmd) with
        | some r => r.get_new_command env cmd
        | none => [] := by
  intro rules
  induction rules with
  | nil => rfl
  | cons r rs ih =>
    rw [get_corrected_commands]
    cases h : r.matchCmd env cmd with
    | true => simp [List.find?, h]
    | false => simp [List.find?, h, ih]

theorem dispatch_eq_of_unique (env : Env) (cmd : Command) (l : List Rule) (out : List String)
    (hex : ∃ r ∈ l, r.matchCmd env cmd = true)
    (hall : ∀ r ∈ l, r.matchCmd env cmd = true → r.get_new_command env cmd = out) :
    get_corrected_commands env l cmd = out := by
  rw [get_corrected_eq_find]
  have hsome : (l.find? (fun r => r.matchCmd env cmd)).isSome = true := by
    rw [List.find?_isSome]
    obtain ⟨r, hr, hm⟩ := hex
    exact ⟨r, hr, hm⟩
  rcases hf : l.find? (fun r => r.matchCmd env cmd) with _ | r
  · rw [hf] at hsome; exact absurd hsome (by simp)
  · rw [hf]
    exact hall r (List.mem_of_find?_eq_some hf)
      (@List.find?_some Rule (fun r => r.matchCmd env cmd) r l hf)

/-! ### Claim theorems -/

/-- C8: for all strings `a`, `b`, `fuzzy::levenshtein_distance(a, b)` equals
`fuzzy::levenshtein_distance(b, a)`, and `fuzzy::levenshtein_distance(a, a)`
equals 0. -/
theorem levenshtein_symm_and_self :
    (∀ a b : String, fuzzy.levenshtein_distance a b = fuzzy.levenshtein_distance b a) ∧
    (∀ a : String, fuzzy.levenshtein_distance a a = 0) := by
  constructor
  · intro a b
    exact levEntry_comm a.data b.data a.data.length b.data.length
  · intro a
    exact levEntry_self a.data a.data.length

/-- C3 is refuted as stated: the `Command` constructor splits only at the
space character, not at every whitespace character, so a script containing a
tab yields one token where the spec's whitespace-split yields two. -/
theorem tokens_whitespace_counterexample :
    ¬ ((Command.build "a\tb" "").script_parts = whitespaceTokens "a\tb") := by
  decide

/-- C3 (amended): for every script `s` and output `o`, the `Command`
constructed from `(s, o)` has tokens equal to the split of `s` at the space
character `' '` (rather than at arbitrary whitespace) with empty fragments
removed, order preserved; every constructed `Command` satisfies this
invariant. -/
theorem tokens_eq_space_split (s o : String) :
    (Command.build s o).script_parts = tokensOfSplitAll (fun c => c == ' ') s :=
  split_eq_space_tokens s

/-- C1: `RuleManager::get_corrected_commands` returns the candidate list of
the first rule in the registry whose `match(cmd)` is true — the dispatch
loop equals first-match selection, so at most one rule's correction function
is invoked — and it returns the empty list exactly when no rule's
`match(cmd)` is true. -/
theorem dispatch_first_match (env : Env) (rules : List Rule) (cmd : Command) :
    (get_corrected_commands env rules cmd =
      match rules.find? (fun r => r.matchCmd env cmd) with
      | some r => r.get_new_command env cmd
      | none => []) ∧
    (rules.find? (fun r => r.matchCmd env cmd) = none ↔
      ∀ r ∈ rules, r.matchCmd env cmd = false) ∧
    (∀ r, rules.find? (fun r => r.matchCmd env cmd) = some r →
      r ∈ rules ∧ r.matchCmd env cmd = true) := by
  refine ⟨get_corrected_eq_find env cmd rules, ?_, ?_⟩
  · simp [List.find?_eq_none]
  · intro r h
    exact ⟨List.mem_of_find?_eq_some h,
      @List.find?_some Rule (fun r => r.matchCmd env cmd) r rules h⟩

/-- Witness for C1: on an unrecognized script with empty output no rule
matches and the dispatcher returns the empty candidate list. -/
theorem dispatch_first_match_witness :
    get_corrected_commands env0 registry (Command.build "qwerty" "") = [] := by
  have h := dispatch_first_match env0 registry (Command.build "qwerty" "")
  rw [h.1, h.2.1.mpr (by decide)]

/-- C9: with script exactly `"ls"`, empty output yields `"ls -A"` and
non-empty output yields `"ls -lah"` — in any registry order the `std::sort`
contract allows, since the two rules' conditions are mutually exclusive and
no other rule matches either Command; neither shadows the other. -/
theorem ls_rules_no_shadow (env : Env) (l : List Rule) (hperm : l.Perm registry) :
    get_corrected_commands env l (Command.build "ls" "") = ["ls -A"] ∧
    get_corrected_commands env l (Command.build "ls" "readme.md\n") = ["ls -lah"] := by
  constructor
  · apply dispatch_eq_of_unique
    · exact ⟨LsAllRule, hperm.mem_iff.mpr (by simp [registry]), rfl⟩
    · intro r hr hm
      have hr' : r ∈ registry := hperm.mem_iff.mp hr
      fin_cases hr' <;> first | rfl | exact Bool.noConfusion hm
  · apply dispatch_eq_of_unique
    · exact ⟨LsLahRule, hperm.mem_iff.mpr (by simp [registry]), rfl⟩
    · intro r hr hm
      have hr' : r ∈ registry := hperm.mem_iff.mp hr
      fin_cases hr' <;> first | rfl | exact Bool.noConfusion hm

/-- Witness for C9, instantiated at the registration-order registry. -/
theorem ls_rules_no_shadow_witness :
    get_corrected_commands env0 registry (Command.build "ls" "") = ["ls -A"] ∧
    get_corrected_commands env0 registry (Command.build "ls" "readme.md\n") = ["ls -lah"] :=
  ls_rules_no_shadow env0 registry (List.Perm.refl registry)

theorem all_priority_1000 : ∀ r ∈ registry, r.priority = 1000 := by decide

theorem perm_registry_pairwise (l : List Rule) (hp : l.Perm registry) :
    l.Pairwise (fun a b => a.priority ≤ b.priority) := by
  apply List.pairwise_of_forall_mem_list
  intro a ha b hb
  rw [all_priority_1000 a (hp.mem_iff.mp ha), all_priority_1000 b (hp.mem_iff.mp hb)]

/-- C2 is refuted: every rule has priority 1000, so the `std::sort`
postcondition (a priority-sorted permutation) is also satisfied by the
registry with its first two rules exchanged — the comparator compares
priority only, and `std::sort` is not stable, so preservation of the source
registration order is not guaranteed by the constructor. -/
theorem registry_order_counterexample :
    ¬ ∀ l, RegistryPost l → l.map Rule.name = registry.map Rule.name := by
  intro hclaim
  have hswap := List.Perm.swap SudoRule FuzzyCommandRule (registry.drop 2)
  have hpost : RegistryPost swappedRegistry :=
    ⟨hswap, perm_registry_pairwise swappedRegistry hswap⟩
  exact absurd (hclaim swappedRegistry hpost) (by decide)

/-- C2 (amended): the registration order is SudoRule first, then
FuzzyCommandRule, GitPushRule, NoCommandRule, ..., GitMainMasterRule last,
and every built-in rule has priority 1000; after construction the registry
is a permutation of these 44 rules that is nondecreasing in priority, but
because all priorities collide, every permutation meets that contract — the
relative order of same-priority rules is NOT guaranteed to equal
registration order (`std::sort` is not stable). -/
theorem registry_amended :
    registry.map Rule.name =
      ["SudoRule", "FuzzyCommandRule", "GitPushRule", "NoCommandRule", "GitNotCommandRule",
       "CdMkdirRule", "CdParentRule", "CdCsRule", "CatDirRule", "ChmodXRule",
       "CpOmittingDirectoryRule", "DryRule", "GitAddRule", "GitAddForceRule",
       "GitBranchDeleteRule", "GitCommitAddRule", "GitCommitAmendRule", "GitPullRule",
       "GitTwoDashesRule", "GrepRecursiveRule", "HasExistsScriptRule", "LsAllRule",
       "LsLahRule", "MkdirPRule", "RmDirRule", "SlLsRule", "PythonCommandRule",
       "PythonExecuteRule", "JavaRule", "JavacRule", "GoRunRule", "CargoRule",
       "DockerNotCommandRule", "NpmWrongCommandRule", "PipUnknownCommandRule",
       "GitCloneGitCloneRule", "WrongHyphenBeforeSubcommandRule",
       "MissingSpaceBeforeSubcommandRule", "RemoveShellPromptLiteralRule", "TouchRule",
       "UnsudoRule", "LnSOrderRule", "Cpp11Rule", "GitMainMasterRule"] ∧
    (∀ r ∈ registry, r.priority = 1000) ∧
    RegistryPost registry ∧
    (∀ l, RegistryPost l → l.Perm registry ∧ ∀ r ∈ l, r.priority = 1000) := by
  refine ⟨by decide, all_priority_1000,
    ⟨List.Perm.refl registry, perm_registry_pairwise registry (List.Perm.refl registry)⟩, ?_⟩
  intro l hl
  exact ⟨hl.1, fun r hr => all_priority_1000 r (hl.1.mem_iff.mp hr)⟩

/-- Witness for C2 (amended), at a concrete rule and the concrete registry. -/
theorem registry_amended_witness :
    LsAllRule.priority = 1000 ∧ registry.Perm registry :=
  ⟨registry_amended.2.1 LsAllRule (by simp [registry]),
   (registry_amended.2.2.2 registry registry_amended.2.2.1).1⟩

theorem candidate_matches_ne_nil_iff (cmds : List String) (input : String) (maxd : Nat) :
    fuzzy.candidate_matches cmds input maxd ≠ [] ↔
      ∃ name ∈ cmds, fuzzy.levenshtein_distance input name ≤ maxd := by
  rw [fuzzy.candidate_matches, Ne, List.filter_eq_nil_iff]
  push_neg
  constructor
  · rintro ⟨m, hm, hd⟩
    obtain ⟨name, hname, rfl⟩ := List.mem_map.mp hm
    exact ⟨name, hname, by simpa using hd⟩
  · rintro ⟨name, hname, hd⟩
    refine ⟨fuzzy.CommandMatch.mk name (fuzzy.levenshtein_distance input name),
      List.mem_map.mpr ⟨name, hname, rfl⟩, by simpa using hd⟩

/-- C4 is refuted as stated: `FuzzyCommandRule::match` calls
`find_similar_commands` with its default `max_distance` of 2, so a first
token whose only close indexed name sits at edit distance exactly 3 does not
match, although the claim (distance 3) requires it to. -/
theorem fuzzy_match_distance_counterexample :
    FuzzyCommandRule.matchCmd ⟨["abcd"], fun _ => false, fun l => l⟩
        (Command.build "a" "a: command not found") = false ∧
    utils.contains (Command.build "a" "a: command not found").output "command not found" = true ∧
    (Command.build "a" "a: command not found").script_parts ≠ [] ∧
    ∃ name ∈ (Env.mk ["abcd"] (fun _ => false) (fun l => l)).commands,
      fuzzy.levenshtein_distance
        ((Command.build "a" "a: command not found").script_parts.getD 0 "") name ≤ 3 := by
  have hl : fuzzy.levenshtein_distance "a" "abcd" = 3 := by
    simp [fuzzy.levenshtein_distance, fuzzy.levEntry]
  refine ⟨?_, by decide, by decide, ⟨"abcd", by decide, ?_⟩⟩
  · simp +decide [FuzzyCommandRule, find_similar_commands, fuzzy.candidate_matches, hl,
      Command.build, utils.split, utils.splitGo]
  · have hg : (Command.build "a" "a: command not found").script_parts.getD 0 "" = "a" := by
      decide
    rw [hg, hl]

/-- C4 (amended): the fuzzy command-name rule matches a Command exactly when
the output contains "command not found", the token list is non-empty, and
the FuzzyMatcher returns at least one indexed executable name within edit
distance 2 — the default threshold the match predicate passes — of the first
token (distance 3 is used only when generating suggestions). -/
theorem fuzzy_match_amended (env : Env) (cmd : Command)
    (hsort : ∀ l, (env.sortMatches l).Perm l) :
    FuzzyCommandRule.matchCmd env cmd = true ↔
      (utils.contains cmd.output "command not found" = true ∧
       cmd.script_parts ≠ [] ∧
       ∃ name ∈ env.commands,
         fuzzy.levenshtein_distance (cmd.script_parts.getD 0 "") name ≤ 2) := by
  cases h1 : utils.contains cmd.output "command not found" with
  | false => simp [FuzzyCommandRule, h1]
  | true =>
    cases h2 : cmd.script_parts.isEmpty with
    | true =>
      have h2' : cmd.script_parts = [] := List.isEmpty_iff.mp h2
      simp [FuzzyCommandRule, h1, h2, h2']
    | false =>
      have h2' : cmd.script_parts ≠ [] := by
        intro hh
        rw [hh] at h2
        exact Bool.noConfusion h2
      have hperm := hsort (fuzzy.candidate_matches env.commands (cmd.script_parts.getD 0 "") 2)
      have hlen := hperm.length_eq
      constructor
      · intro hm
        refine ⟨rfl, h2', ?_⟩
        rw [← candidate_matches_ne_nil_iff]
        intro hnil
        rw [hnil] at hlen
        simp only [FuzzyCommandRule, h1, h2] at hm
        simp only [find_similar_commands, hnil] at hm
        rcases he : env.sortMatches [] with _ | ⟨a, as⟩
        · rw [he] at hm; exact Bool.noConfusion hm
        · rw [he] at hlen; exact absurd hlen (by simp)
      · rintro ⟨-, -, hex⟩
        rw [← candidate_matches_ne_nil_iff] at hex
        simp only [FuzzyCommandRule, h1, h2, find_similar_commands]
        rcases he : env.sortMatches
            (fuzzy.candidate_matches env.commands (cmd.script_parts.getD 0 "") 2) with _ | ⟨a, as⟩
        · rw [he] at hlen
          exact absurd (List.length_eq_zero.mp hlen.symm) hex
        · simp

/-- Witness for C4 (amended): with "git" in the index, "gti st" (output
"gti: command not found") matches, since the distance from "gti" to "git"
is 2. -/
theorem fuzzy_match_amended_witness :
    FuzzyCommandRule.matchCmd (Env.mk ["git"] (fun _ => false) (fun l => l))
      (Command.build "gti st" "gti: command not found") = true := by
  have hl : fuzzy.levenshtein_distance "gti" "git" = 2 := by
    simp [fuzzy.levenshtein_distance, fuzzy.levEntry]
  refine (fuzzy_match_amended _ _ (fun l => List.Perm.refl l)).mpr
    ⟨by decide, by decide, "git", by decide, ?_⟩
  have hg : (Command.build "gti st" "gti: command not found").script_parts.getD 0 "" = "gti" := by
    decide
  rw [hg, hl]

/-- A two-name index with the identity `std::sort` behaviour (the list it is
applied to below is already sorted, so the contract holds). -/
def envSortId : Env := Env.mk ["aa", "ab"] (fun _ => false) (fun l => l)

/-- The same index with a `std::sort` behaviour that exchanges the first two
entries — equally allowed by the sort contract when their distances tie. -/
def envSortSwap : Env :=
  Env.mk ["aa", "ab"] (fun _ => false)
    (fun l =>
      match l with
      | a :: b :: rest => b :: a :: rest
      | l => l)

/-- C5 is refuted in its tie-breaking part: with index `["aa", "ab"]` and
first token `"ac"` both names tie at distance 1; a sort result that swaps
them still satisfies the `std::sort` contract (sorted permutation) yet
produces the candidates in the opposite of the index's enumeration order —
the code's `std::sort` is not stable, so enumeration-order tie-breaking is
not guaranteed. -/
theorem fuzzy_tie_order_counterexample :
    SortSpec (fuzzy.candidate_matches ["aa", "ab"] "ac" 3)
      (envSortSwap.sortMatches (fuzzy.candidate_matches ["aa", "ab"] "ac" 3)) ∧
    FuzzyCommandRule.get_new_command envSortSwap
      (Command.build "ac x" "ac: command not found") = ["ab x", "aa x"] ∧
    FuzzyCommandRule.get_new_command envSortId
      (Command.build "ac x" "ac: command not found") = ["aa x", "ab x"] ∧
    (["ab x", "aa x"] : List String) ≠ ["aa x", "ab x"] := by
  have h1 : fuzzy.levenshtein_distance "ac" "aa" = 1 := by
    simp [fuzzy.levenshtein_distance, fuzzy.levEntry]
  have h2 : fuzzy.levenshtein_distance "ac" "ab" = 1 := by
    simp [fuzzy.levenshtein_distance, fuzzy.levEntry]
  have hc : fuzzy.candidate_matches ["aa", "ab"] "ac" 3 =
      [fuzzy.CommandMatch.mk "aa" 1, fuzzy.CommandMatch.mk "ab" 1] := by
    simp [fuzzy.candidate_matches, h1, h2]
  refine ⟨?_, ?_, ?_, by decide⟩
  · rw [hc]
    exact ⟨List.Perm.swap _ _ _, by simp [envSortSwap]⟩
  · have hemp : (Command.build "ac x" "ac: command not found").script_parts.isEmpty = false := by
      decide
    simp only [FuzzyCommandRule, find_similar_commands, hemp, Bool.false_eq_true,
      if_false]
    rw [show fuzzy.candidate_matches envSortSwap.commands
        ((Command.build "ac x" "ac: command not found").script_parts.getD 0 "") 3 =
        [fuzzy.CommandMatch.mk "aa" 1, fuzzy.CommandMatch.mk "ab" 1] from hc]
    decide
  · have hemp : (Command.build "ac x" "ac: command not found").script_parts.isEmpty = false := by
      decide
    simp only [FuzzyCommandRule, find_similar_commands, hemp, Bool.false_eq_true,
      if_false]
    rw [show fuzzy.candidate_matches envSortId.commands
        ((Command.build "ac x" "ac: command not found").script_parts.getD 0 "") 3 =
        [fuzzy.CommandMatch.mk "aa" 1, fuzzy.CommandMatch.mk "ab" 1] from hc]
    decide

/-- C5 (amended): for every matched Command (non-empty token list) and any
`std::sort` behaviour meeting its contract on the match vector,
`FuzzyCommandRule::get_new_command` returns at most 3 candidates — the first
three entries of a distance-sorted permutation of the indexed names within
edit distance 3 of the first token, each candidate being the matched name
followed by the original remaining tokens joined by single spaces with the
argument tokens unaltered; the order is ascending by distance, but ties are
in the implementation-defined `std::sort` order, not necessarily the index's
enumeration order. -/
theorem fuzzy_suggestions_amended (env : Env) (cmd : Command)
    (hne : cmd.script_parts ≠ [])
    (hsort : SortSpec (fuzzy.candidate_matches env.commands (cmd.script_parts.getD 0 "") 3)
      (env.sortMatches
        (fuzzy.candidate_matches env.commands (cmd.script_parts.getD 0 "") 3))) :
    FuzzyCommandRule.get_new_command env cmd =
      ((env.sortMatches
          (fuzzy.candidate_matches env.commands (cmd.script_parts.getD 0 "") 3)).take 3).map
        (fun m => (cmd.script_parts.drop 1).foldl (fun acc p => acc ++ " " ++ p) m.command) ∧
    (FuzzyCommandRule.get_new_command env cmd).length ≤ 3 ∧
    (env.sortMatches
        (fuzzy.candidate_matches env.commands (cmd.script_parts.getD 0 "") 3)).Pairwise
      (fun a b => a.distance ≤ b.distance) ∧
    ∀ s ∈ FuzzyCommandRule.get_new_command env cmd,
      ∃ name ∈ env.commands,
        fuzzy.levenshtein_distance (cmd.script_parts.getD 0 "") name ≤ 3 ∧
        s = (cmd.script_parts.drop 1).foldl (fun acc p => acc ++ " " ++ p) name := by
  have heq : FuzzyCommandRule.get_new_command env cmd =
      ((env.sortMatches
          (fuzzy.candidate_matches env.commands (cmd.script_parts.getD 0 "") 3)).take 3).map
        (fun m => (cmd.script_parts.drop 1).foldl (fun acc p => acc ++ " " ++ p) m.command) := by
    simp [FuzzyCommandRule, find_similar_commands, hne]
  refine ⟨heq, ?_, hsort.2, ?_⟩
  · rw [heq]
    simp only [List.length_map, List.length_take]
    omega
  · intro s hs
    rw [heq] at hs
    obtain ⟨m, hm, rfl⟩ := List.mem_map.mp hs
    have hm2 : m ∈ fuzzy.candidate_matches env.commands (cmd.script_parts.getD 0 "") 3 :=
      hsort.1.mem_iff.mp (List.mem_of_mem_take hm)
    rw [fuzzy.candidate_matches] at hm2
    obtain ⟨hmm, hmd⟩ := List.mem_filter.mp hm2
    obtain ⟨name, hname, rfl⟩ := List.mem_map.mp hmm
    exact ⟨name, hname, by simpa using hmd, rfl⟩

/-- Witness for C5 (amended) at a concrete index, Command, and a sort
behaviour (identity on an already-sorted vector) meeting the contract. -/
theorem fuzzy_suggestions_amended_witness :
    (FuzzyCommandRule.get_new_command envSortId
      (Command.build "ac x" "ac: command not found")).length ≤ 3 := by
  have h1 : fuzzy.levenshtein_distance "ac" "aa" = 1 := by
    simp [fuzzy.levenshtein_distance, fuzzy.levEntry]
  have h2 : fuzzy.levenshtein_distance "ac" "ab" = 1 := by
    simp [fuzzy.levenshtein_distance, fuzzy.levEntry]
  have hg : (Command.build "ac x" "ac: command not found").script_parts = ["ac", "x"] := by
    decide
  have hc : fuzzy.candidate_matches envSortId.commands
      ((Command.build "ac x" "ac: command not found").script_parts.getD 0 "") 3 =
      [fuzzy.CommandMatch.mk "aa" 1, fuzzy.CommandMatch.mk "ab" 1] := by
    simp [fuzzy.candidate_matches, h1, h2, envSortId, hg]
  have hs : SortSpec
      (fuzzy.candidate_matches envSortId.commands
        ((Command.build "ac x" "ac: command not found").script_parts.getD 0 "") 3)
      (envSortId.sortMatches
        (fuzzy.candidate_matches envSortId.commands
          ((Command.build "ac x" "ac: command not found").script_parts.getD 0 "") 3)) := by
    constructor
    · exact List.Perm.refl _
    · show (fuzzy.candidate_matches envSortId.commands
          ((Command.build "ac x" "ac: command not found").script_parts.getD 0 "") 3).Pairwise _
      rw [hc]
      simp
  exact (fuzzy_suggestions_amended envSortId
    (Command.build "ac x" "ac: command not found") (by decide) hs).2.1

/-- C6 (code bug): `SudoRule::match` lower-cases the output and then searches
that lowercased text for the literal "EACCES" — a string that can never
contain an upper-case letter — so the EACCES trigger of the claim (and of
the spec's elevation row) is dead code: an output containing "EACCES" and no
other trigger does not match.  Case-folded "permission denied", the
case-sensitive "unless you are root", and the single "sudo "-prefixed
candidate behave exactly as claimed. -/
theorem sudo_eacces_dead :
    SudoRule.matchCmd env0 (Command.build "mkdir /opt/app" "Error: EACCES") = false ∧
    SudoRule.matchCmd env0 (Command.build "mkdir /opt/app" "PERMISSION DENIED") = true ∧
    SudoRule.matchCmd env0 (Command.build "mkdir /opt/app" "unless you are root") = true ∧
    SudoRule.get_new_command env0 (Command.build "mkdir /opt/app" "Error: EACCES") =
      ["sudo mkdir /opt/app"] := by
  refine ⟨by decide, by decide, by decide, by decide⟩

/-- C10: when a pattern-capturing git rule matches but its regular-expression
capture fails, the rule still returns a non-empty fixed default rather than
failing: `GitPushRule` falls back to `git push --set-upstream origin master`
and `GitNotCommandRule` falls back to the original script unchanged. -/
theorem git_capture_fallback (env : Env) (c1 c2 : Command)
    (hm1 : GitPushRule.matchCmd env c1 = true)
    (hc1 : captureGitPushBranch c1.output = none)
    (hm2 : GitNotCommandRule.matchCmd env c2 = true)
    (hc2 : captureMostSimilar c2.output = none) :
    GitPushRule.get_new_command env c1 = ["git push --set-upstream origin master"] ∧
    GitNotCommandRule.get_new_command env c2 = [c2.script] ∧
    GitPushRule.get_new_command env c1 ≠ [] ∧
    GitNotCommandRule.get_new_command env c2 ≠ [] := by
  have e1 : GitPushRule.get_new_command env c1 = ["git push --set-upstream origin master"] := by
    simp [GitPushRule, hc1]
  have e2 : GitNotCommandRule.get_new_command env c2 = [c2.script] := by
    simp [GitNotCommandRule, hc2]
  exact ⟨e1, e2, by simp [e1], by simp [e2]⟩

/-- Witness for C10: concrete matched Commands whose outputs contain no
capturable pattern. -/
theorem git_capture_fallback_witness :
    GitPushRule.get_new_command env0
        (Command.build "git push" "fatal: The current branch feature has no upstream branch") =
      ["git push --set-upstream origin master"] ∧
    GitNotCommandRule.get_new_command env0
        (Command.build "git stauts" "git: stauts is not a git command") =
      [(Command.build "git stauts" "git: stauts is not a git command").script] := by
  have h := git_capture_fallback env0
    (Command.build "git push" "fatal: The current branch feature has no upstream branch")
    (Command.build "git stauts" "git: stauts is not a git command")
    (by decide) (by decide) (by decide) (by decide)
  exact ⟨h.1, h.2.1⟩

theorem length_pos_of_isEmpty_false {α} (l : List α) (h : l.isEmpty = false) :
    0 < l.length := by
  cases l with
  | nil => exact Bool.noConfusion h
  | cons a as => simp

theorem getD_zero_eq_getElem (l : List String) (h : 0 < l.length) : l.getD 0 "" = l[0] := by
  rw [List.getD_eq_getElem?_getD, List.getElem?_eq_getElem h]
  rfl

theorem splitGo_ne_nil_acc (d : Char) :
    ∀ (l acc : List Char), acc ≠ [] → utils.splitGo d l acc ≠ [] := by
  intro l
  induction l with
  | nil =>
    intro acc h
    rw [utils.splitGo]
    simp [h]
  | cons c cs ih =>
    intro acc h
    rw [utils.splitGo]
    by_cases hc : c = d
    · rw [if_pos hc, if_neg h]
      simp
    · rw [if_neg hc]
      exact ih (c :: acc) (by simp)

theorem split_ne_nil_java (s : String) (h : utils.starts_with s "java " = true) :
    utils.split s ≠ [] := by
  rw [utils.starts_with] at h
  obtain ⟨t, ht⟩ := List.isPrefixOf_iff_prefix.mp h
  rw [utils.split, ← ht]
  show utils.splitGo ' ' ('j' :: ('a' :: 'v' :: 'a' :: ' ' :: t)) [] ≠ []
  rw [utils.splitGo, if_neg (by decide)]
  exact splitGo_ne_nil_acc ' ' _ ['j'] (by simp)

theorem chmodX_checked_eq (env : Env) (c : Command) :
    chmodXMatchChecked c = some (ChmodXRule.matchCmd env c) := by
  rw [chmodXMatchChecked]
  cases h1 : utils.contains c.output "Permission denied" with
  | false => simp [ChmodXRule, h1]
  | true =>
    cases h2 : decide (1 ≤ c.script_parts.length) with
    | false => simp [ChmodXRule, h1, h2]
    | true =>
      have hlen : 0 < c.script_parts.length := by
        have := of_decide_eq_true h2
        omega
      have hp0 : c.script_parts[0]? = some c.script_parts[0] := List.getElem?_eq_getElem hlen
      have hg : c.script_parts.getD 0 "" = c.script_parts[0] := getD_zero_eq_getElem _ hlen
      have hc0 : utils.cppCharAtChecked c.script_parts[0] 0 =
          some (utils.cppCharAt c.script_parts[0] 0) := by
        rw [utils.cppCharAtChecked, if_pos (Nat.zero_le _)]
      cases h3 : utils.cppCharAt c.script_parts[0] 0 == '.' with
      | false =>
        simp [ChmodXRule, h1, h2, hp0, hg, hc0, h3]
        intro h
        exact absurd h (by simpa using h3)
      | true =>
        have hne : (c.script_parts[0] : String).data ≠ [] := by
          intro hd
          have : utils.cppCharAt c.script_parts[0] 0 = Char.ofNat 0 := by
            rw [utils.cppCharAt, hd]
            rfl
          rw [this] at h3
          exact absurd (of_decide_eq_true h3) (by decide)
        have hc1 : utils.cppCharAtChecked c.script_parts[0] 1 =
            some (utils.cppCharAt c.script_parts[0] 1) := by
          rw [utils.cppCharAtChecked, if_pos ?_]
          have : 0 < (c.script_parts[0] : String).data.length := List.length_pos.mpr hne
          omega
        simp [ChmodXRule, h1, h2, hp0, hg, hc0, h3, hc1]
        intro hcon
        exact absurd (by simpa using h3) hcon

theorem java_checked_eq (env : Env) (s o : String) :
    javaMatchChecked (Command.build s o) =
      some (JavaRule.matchCmd env (Command.build s o)) := by
  rw [javaMatchChecked]
  cases h1 : utils.starts_with s "java " with
  | false => simp [JavaRule, Command.build, h1]
  | true =>
    have hne : utils.split s ≠ [] := split_ne_nil_java s h1
    have hsome : (utils.split s).getLast?.isSome = true := List.getLast?_isSome.mpr hne
    rcases hl : (utils.split s).getLast? with _ | x
    · rw [hl] at hsome
      exact Bool.noConfusion hsome
    · have hgd : (utils.split s).getLastD "" = x := by
        rw [List.getLastD_eq_getLast?, hl]
        rfl
      simp [JavaRule, Command.build, h1, hl, hgd]

theorem dry_checked_eq (env : Env) (c : Command) :
    dryMatchChecked c = some (DryRule.matchCmd env c) := by
  rw [dryMatchChecked]
  by_cases h : c.script_parts.length < 2
  · simp [DryRule, h]
  · have h0 : 0 < c.script_parts.length := by omega
    have h1 : 1 < c.script_parts.length := by omega
    have hp0 : c.script_parts[0]? = some c.script_parts[0] := List.getElem?_eq_getElem h0
    have hp1 : c.script_parts[1]? = some c.script_parts[1] := List.getElem?_eq_getElem h1
    have hg0 : c.script_parts.getD 0 "" = c.script_parts[0] := getD_zero_eq_getElem _ h0
    have hg1 : c.script_parts.getD 1 "" = c.script_parts[1] := by
      rw [List.getD_eq_getElem?_getD, hp1]
      rfl
    simp [DryRule, h, hp0, hp1, hg0, hg1]

theorem hasExists_checked_eq (env : Env) (c : Command) :
    hasExistsScriptMatchChecked env c = some (HasExistsScriptRule.matchCmd env c) := by
  rw [hasExistsScriptMatchChecked]
  cases h1 : utils.contains c.output "command not found" with
  | false => simp [HasExistsScriptRule, h1]
  | true =>
    cases h2 : c.script_parts.isEmpty with
    | true => simp [HasExistsScriptRule, h1, h2]
    | false =>
      have h0 : 0 < c.script_parts.length := length_pos_of_isEmpty_false _ h2
      have hp0 : c.script_parts[0]? = some c.script_parts[0] := List.getElem?_eq_getElem h0
      have hg : c.script_parts.getD 0 "" = c.script_parts[0] := getD_zero_eq_getElem _ h0
      simp [HasExistsScriptRule, h1, h2, hp0, hg]

theorem python_checked_eq (env : Env) (c : Command) :
    pythonCommandMatchChecked c = some (PythonCommandRule.matchCmd env c) := by
  rw [pythonCommandMatchChecked]
  cases h1 : utils.contains c.output "Permission denied" with
  | false => simp [PythonCommandRule, h1]
  | true =>
    cases h2 : c.script_parts.isEmpty with
    | true => simp [PythonCommandRule, h1, h2]
    | false =>
      have h0 : 0 < c.script_parts.length := length_pos_of_isEmpty_false _ h2
      have hp0 : c.script_parts[0]? = some c.script_parts[0] := List.getElem?_eq_getElem h0
      have hg : c.script_parts.getD 0 "" = c.script_parts[0] := getD_zero_eq_getElem _ h0
      simp [PythonCommandRule, h1, h2, hp0, hg]

theorem wrongHyphen_checked_eq (env : Env) (c : Command) :
    wrongHyphenMatchChecked c = some (WrongHyphenBeforeSubcommandRule.matchCmd env c) := by
  rw [wrongHyphenMatchChecked]
  cases h1 : utils.contains c.output "command not found" with
  | false => simp [WrongHyphenBeforeSubcommandRule, h1]
  | true =>
    cases h2 : decide (0 < c.script_parts.length) with
    | false => simp [WrongHyphenBeforeSubcommandRule, h1, h2]
    | true =>
      have h0 : 0 < c.script_parts.length := of_decide_eq_true h2
      have hp0 : c.script_parts[0]? = some c.script_parts[0] := List.getElem?_eq_getElem h0
      have hg : c.script_parts.getD 0 "" = c.script_parts[0] := getD_zero_eq_getElem _ h0
      simp [WrongHyphenBeforeSubcommandRule, h1, h2, hp0, hg]

theorem fuzzy_checked_eq (env : Env) (c : Command) :
    fuzzyMatchChecked env c = some (FuzzyCommandRule.matchCmd env c) := by
  rw [fuzzyMatchChecked]
  cases h1 : utils.contains c.output "command not found" with
  | false => simp [FuzzyCommandRule, h1]
  | true =>
    cases h2 : c.script_parts.isEmpty with
    | true =>
      simp [FuzzyCommandRule, h1, h2]
      intro h
      exact absurd (List.isEmpty_iff.mp h2) h
    | false =>
      have h0 : 0 < c.script_parts.length := length_pos_of_isEmpty_false _ h2
      have hp0 : c.script_parts[0]? = some c.script_parts[0] := List.getElem?_eq_getElem h0
      have hg : c.script_parts.getD 0 "" = c.script_parts[0] := getD_zero_eq_getElem _ h0
      simp [FuzzyCommandRule, h1, h2, hp0, hg]
      intro _ hp
      rw [hp] at h2
      exact Bool.noConfusion h2

/-- C7: every token or character access performed inside a rule match
predicate stays within the range C++ defines, for every Command the
constructor can produce (including empty `tokens` or empty `output`): the
checked predicates — which return `none` on any out-of-range access — always
return `some` and agree with the embedding.  The explicit emptiness/length
guards cover `DryRule`, `HasExistsScriptRule`, `PythonCommandRule`,
`WrongHyphenBeforeSubcommandRule` and `FuzzyCommandRule`; `JavaRule`'s
unguarded `back()` is unreachable on an empty vector because
`starts_with "java "` forces a first token; `ChmodXRule`'s `parts[0][1]` is
in range because `parts[0][0] == '.'` forces a non-empty first token and
`std::string::operator[]` is defined at index `size()`. -/
theorem match_predicates_total (env : Env) (s o : String) :
    chmodXMatchChecked (Command.build s o) =
      some (ChmodXRule.matchCmd env (Command.build s o)) ∧
    javaMatchChecked (Command.build s o) =
      some (JavaRule.matchCmd env (Command.build s o)) ∧
    dryMatchChecked (Command.build s o) =
      some (DryRule.matchCmd env (Command.build s o)) ∧
    hasExistsScriptMatchChecked env (Command.build s o) =
      some (HasExistsScriptRule.matchCmd env (Command.build s o)) ∧
    pythonCommandMatchChecked (Command.build s o) =
      some (PythonCommandRule.matchCmd env (Command.build s o)) ∧
    wrongHyphenMatchChecked (Command.build s o) =
      some (WrongHyphenBeforeSubcommandRule.matchCmd env (Command.build s o)) ∧
    fuzzyMatchChecked env (Command.build s o) =
      some (FuzzyCommandRule.matchCmd env (Command.build s o)) :=
  ⟨chmodX_checked_eq env _, java_checked_eq env s o, dry_checked_eq env _,
   hasExists_checked_eq env _, python_checked_eq env _, wrongHyphen_checked_eq env _,
   fuzzy_checked_eq env _⟩

end TheShit
